import Mathlib

/-!
Shallow embedding of `main.go` of s3_suricata_backup.

The program lists the Network Firewall rule groups of a region, describes each
one and stores its Suricata rule text as a timestamped S3 object.

Everything the program does to the outside world goes through five calls:
`config.LoadDefaultConfig`, the `ListRuleGroups` paginator, `DescribeRuleGroup`,
`time.Now` and `PutObject`.  The embedding takes the answers to these calls from
an environment `Env` and records every call in a chronological list of `Event`s,
which is threaded through the functions (explicit state passing).  Go's
`(value, error)` results are pairs whose second component is `Option GoError`
(`none` is `nil`); a run-time panic is the `Except.error` side of a result.
`log.Printf` lines have no effect on results or calls and are left out.
-/

/-! ## Data model -/

/-- A Go `error` value. -/
structure GoError where
  msg : String
deriving DecidableEq, Repr

/-- A Go run-time panic. -/
inductive Panic where
  | nilPointerDereference
deriving DecidableEq, Repr

/-- A Go `string`. -/
abbrev GoString : Type := String

/-- Go `aws.String`: a pointer to the given string. -/
def aws.String (v : GoString) : Option GoString := some v

/-- Go `aws.ToString`: the pointed-to string, or `""` for a nil pointer. -/
def aws.ToString (p : Option GoString) : GoString :=
  match p with
  | some v => v
  | none => ""

/-- The `types.RuleGroupMetadata` of the SDK: one entry of a listing page. -/
structure types.RuleGroupMetadata where
  Arn : Option String
  Name : Option String
deriving DecidableEq, Repr

/-- The `types.RulesSource` of the SDK; only the member the program reads. -/
structure types.RulesSource where
  RulesString : Option String
deriving DecidableEq, Repr

/-- The `types.RuleGroup` of the SDK; only the member the program reads. -/
structure types.RuleGroup where
  RulesSource : Option types.RulesSource
deriving DecidableEq, Repr

/-- The `networkfirewall.ListRuleGroupsOutput`: one page of the listing. The
continuation token is consumed by the paginator and does not reach the program. -/
structure networkfirewall.ListRuleGroupsOutput where
  RuleGroups : List types.RuleGroupMetadata
deriving DecidableEq, Repr

/-- The `networkfirewall.DescribeRuleGroupInput`: the ARN and type of a describe request. -/
structure networkfirewall.DescribeRuleGroupInput where
  RuleGroupArn : Option String
  Type_ : String
deriving DecidableEq, Repr

/-- The `networkfirewall.DescribeRuleGroupOutput`; `RuleGroup` is a pointer and may
be nil. -/
structure networkfirewall.DescribeRuleGroupOutput where
  RuleGroup : Option types.RuleGroup
deriving DecidableEq, Repr

/-- The `s3.PutObjectInput`: bucket, key and the bytes of the body reader. -/
structure s3.PutObjectInput where
  Bucket : Option String
  Key : Option String
  Body : ByteArray

/-- A wall-clock reading, broken down into its calendar fields. -/
structure Time where
  year : Nat
  month : Nat
  day : Nat
  hour : Nat
  minute : Nat
  second : Nat
deriving DecidableEq, Repr

/-- The program's own `RuleGroup` struct (main.go, lines 26-29). -/
structure RuleGroup where
  Name : String
  Arn : String
deriving DecidableEq, Repr

/-- Constants of main.go, lines 19-23. -/
def S3BucketName : String := "placeholder"

/-- Constant `S3Folder`. -/
def S3Folder : String := "placeholder"

/-- Constant `Region`. -/
def Region : String := "placeholder"

/-! ## The outside world -/

/-- One call made by the program. -/
inductive Event where
  | loadDefaultConfig (region : String)
  | listRuleGroupsPage
  | describeRuleGroup (input : networkfirewall.DescribeRuleGroupInput)
  | now
  | putObject (input : s3.PutObjectInput)

/-- The answers of the outside world.  `pages` is the sequence of outcomes of
the successive page requests of the listing; the other services answer their
`i`-th call (counting from 0) as a function of `i` and of the request. -/
structure Env where
  loadDefaultConfig : Option GoError
  pages : List (Except GoError networkfirewall.ListRuleGroupsOutput)
  describeRuleGroup :
    Nat → networkfirewall.DescribeRuleGroupInput →
      Except GoError networkfirewall.DescribeRuleGroupOutput
  putObject : Nat → s3.PutObjectInput → Option GoError
  now : Nat → Time

/-- The describe requests of a trace, in order. -/
def describesOf : List Event → List networkfirewall.DescribeRuleGroupInput
  | [] => []
  | Event.describeRuleGroup i :: tr => i :: describesOf tr
  | _ :: tr => describesOf tr

/-- The put requests of a trace, in order. -/
def putsOf : List Event → List s3.PutObjectInput
  | [] => []
  | Event.putObject i :: tr => i :: putsOf tr
  | _ :: tr => putsOf tr

/-- The number of clock reads of a trace. -/
def nowCalls : List Event → Nat
  | [] => 0
  | Event.now :: tr => nowCalls tr + 1
  | _ :: tr => nowCalls tr

/-! ## ListRuleGroups (main.go, lines 32-51) -/

/-- The inner loop, lines 42-47: append one `RuleGroup` per entry of the page. -/
def ListRuleGroups.appendPage (ruleGroups : List RuleGroup)
    (page : networkfirewall.ListRuleGroupsOutput) : List RuleGroup :=
  page.RuleGroups.foldl
    (fun acc rg => acc ++ [{ Name := aws.ToString rg.Name, Arn := aws.ToString rg.Arn }])
    ruleGroups

/-- The paginator loop, lines 36-48.  The first argument is what the paginator
still has to deliver: `HasMorePages` is true while it is non-empty and
`NextPage` issues one request and takes its head.  (A fresh SDK paginator
always has a first page to ask for, so the sequences met in a real run are
non-empty; nothing below depends on it.) -/
def ListRuleGroups.loop :
    List (Except GoError networkfirewall.ListRuleGroupsOutput) → List RuleGroup →
      List Event → (List RuleGroup × Option GoError) × List Event
  | [], ruleGroups, tr => ((ruleGroups, none), tr)
  | Except.error err :: _, _, tr => (([], some err), tr ++ [Event.listRuleGroupsPage])
  | Except.ok page :: rest, ruleGroups, tr =>
      ListRuleGroups.loop rest (ListRuleGroups.appendPage ruleGroups page)
        (tr ++ [Event.listRuleGroupsPage])

/-- Function `ListRuleGroups`: start from the nil slice and a fresh paginator. -/
def ListRuleGroups (env : Env) (tr : List Event) :
    (List RuleGroup × Option GoError) × List Event :=
  ListRuleGroups.loop env.pages [] tr

/-! ## FetchSuricataRules (main.go, lines 54-70) -/

/-- Lines 60-69: what `FetchSuricataRules` does with the answer of
`DescribeRuleGroup`.  Reading `resp.RuleGroup.RulesSource` dereferences the
`RuleGroup` pointer, which panics when it is nil. -/
def FetchSuricataRules.result
    (r : Except GoError networkfirewall.DescribeRuleGroupOutput) :
    Except Panic (String × Option GoError) :=
  match r with
  | Except.error err => Except.ok ("", some err)
  | Except.ok resp =>
    match resp.RuleGroup with
    | none => Except.error Panic.nilPointerDereference
    | some ruleGroup =>
      match ruleGroup.RulesSource with
      | some rulesSource =>
        if rulesSource.RulesString ≠ none then
          Except.ok (aws.ToString rulesSource.RulesString, none)
        else Except.ok ("", none)
      | none => Except.ok ("", none)

/-- The request built on lines 56-59. -/
def FetchSuricataRules.input (ruleGroupArn : String) :
    networkfirewall.DescribeRuleGroupInput :=
  { RuleGroupArn := aws.String ruleGroupArn, Type_ := "STATEFUL" }

/-- Function `FetchSuricataRules`: one `DescribeRuleGroup` call, then lines 60-69. -/
def FetchSuricataRules (env : Env) (ruleGroupArn : String) (tr : List Event) :
    Except Panic (String × Option GoError) × List Event :=
  let input := FetchSuricataRules.input ruleGroupArn
  (FetchSuricataRules.result (env.describeRuleGroup (describesOf tr).length input),
    tr ++ [Event.describeRuleGroup input])

/-! ## UploadToS3 (main.go, lines 73-88) -/

/-- Line 74: `fmt.Sprintf("%s/%s", folder, fileName)`. -/
def UploadToS3.key (folder fileName : String) : String :=
  folder ++ "/" ++ fileName

/-- The request built on lines 76-81. -/
def UploadToS3.input (content fileName bucketName folder : String) : s3.PutObjectInput :=
  { Bucket := aws.String bucketName,
    Key := aws.String (UploadToS3.key folder fileName),
    Body := content.toUTF8 }

/-- Function `UploadToS3`: one `PutObject` call whose error, if any, is returned. -/
def UploadToS3 (env : Env) (content fileName bucketName folder : String)
    (tr : List Event) : Option GoError × List Event :=
  let input := UploadToS3.input content fileName bucketName folder
  match env.putObject (putsOf tr).length input with
  | some err => (some err, tr ++ [Event.putObject input])
  | none => (none, tr ++ [Event.putObject input])

/-! ## LambdaHandler (main.go, lines 91-128) -/

/-- Go's `appendInt`: the decimal digits of `x`, zero-padded to `width`. -/
def appendInt (x width : Nat) : List Char :=
  List.replicate (width - (Nat.toDigits 10 x).length) '0' ++ Nat.toDigits 10 x

/-- Go `t.Format("2006-01-02_15-04-05")` (line 118): year, month, day, hour, minute and
second through `appendInt` with widths 4, 2, 2, 2, 2, 2. -/
def Time.Format (t : Time) : String :=
  String.mk (appendInt t.year 4) ++ "-" ++ String.mk (appendInt t.month 2) ++ "-" ++
    String.mk (appendInt t.day 2) ++ "_" ++ String.mk (appendInt t.hour 2) ++ "-" ++
    String.mk (appendInt t.minute 2) ++ "-" ++ String.mk (appendInt t.second 2)

/-- Line 119: `fmt.Sprintf("%s_%s.txt", rg.Name, timestamp)`. -/
def LambdaHandler.fileName (name timestamp : String) : String :=
  name ++ "_" ++ timestamp ++ ".txt"

/-- The loop over the listed rule groups, lines 110-124. -/
def LambdaHandler.loop (env : Env) :
    List RuleGroup → List Event → Except Panic Unit × List Event
  | [], tr => (Except.ok (), tr)
  | rg :: rest, tr =>
    match FetchSuricataRules env rg.Arn tr with
    | (Except.error p, tr1) => (Except.error p, tr1)
    | (Except.ok (rules, err), tr1) =>
      if err ≠ none ∨ rules = "" then LambdaHandler.loop env rest tr1
      else
        let timestamp := Time.Format (env.now (nowCalls tr1))
        let fileName := LambdaHandler.fileName rg.Name timestamp
        LambdaHandler.loop env rest
          (UploadToS3 env rules fileName S3BucketName S3Folder (tr1 ++ [Event.now])).2

/-- Function `LambdaHandler`: load the configuration, list, then back up every group. -/
def LambdaHandler (env : Env) : Except Panic (String × Option GoError) × List Event :=
  match env.loadDefaultConfig with
  | some err => (Except.ok ("", some err), [Event.loadDefaultConfig Region])
  | none =>
    match ListRuleGroups env [Event.loadDefaultConfig Region] with
    | ((_, some err), tr1) => (Except.ok ("", some err), tr1)
    | ((ruleGroups, none), tr1) =>
      match LambdaHandler.loop env ruleGroups tr1 with
      | (Except.error p, tr2) => (Except.error p, tr2)
      | (Except.ok (), tr2) => (Except.ok ("Backup completed successfully.", none), tr2)

/-! ## Vocabulary of the statements about a run -/

/-- What `FetchSuricataRules` returns for `rg` when its describe request is the
`i`-th one of the run. -/
def fetchOutcome (env : Env) (i : Nat) (rg : RuleGroup) :
    Except Panic (String × Option GoError) :=
  FetchSuricataRules.result (env.describeRuleGroup i (FetchSuricataRules.input rg.Arn))

/-- The rule text of a fetch that succeeded with non-empty text. -/
def textToBackUp : Except Panic (String × Option GoError) → Option String
  | Except.ok (rules, none) => if rules = "" then none else some rules
  | _ => none

/-- The listed groups with the rank of their describe request, starting at
rank `k`, up to the first group whose fetch panics (the loop stops there). -/
def reachedFrom (env : Env) (k : Nat) (groups : List RuleGroup) : List (Nat × RuleGroup) :=
  (groups.enumFrom k).takeWhile (fun p => (fetchOutcome env p.1 p.2).isOk)

/-- The groups whose fetch succeeded with non-empty text, with that text, in
listing order. -/
def backedUpFrom (env : Env) (k : Nat) (groups : List RuleGroup) : List (RuleGroup × String) :=
  (reachedFrom env k groups).filterMap
    (fun p => (textToBackUp (fetchOutcome env p.1 p.2)).map (fun rules => (p.2, rules)))

/-- The groups backed up by a run that listed `groups`. -/
def backedUp (env : Env) (groups : List RuleGroup) : List (RuleGroup × String) :=
  backedUpFrom env 0 groups

/-- The clock reading is formatted with the width of the layout: a year of at
most four digits, the other fields of at most two. -/
def Time.FixedWidth (t : Time) : Prop :=
  t.year < 10000 ∧ t.month < 100 ∧ t.day < 100 ∧ t.hour < 100 ∧ t.minute < 100 ∧
    t.second < 100

/-- The number written by a list of decimal digits, continuing from `a`. -/
def digitsValue (a : Nat) (ds : List Char) : Nat :=
  ds.foldl (fun acc c => 10 * acc + (c.toNat - 48)) a

/-- Every successful describe answer carries a rule group. -/
def RuleGroupsPresent (env : Env) : Prop :=
  ∀ i input resp, env.describeRuleGroup i input = Except.ok resp → resp.RuleGroup ≠ none

/-! ## Scenarios used to exercise the theorems -/

/-- Three pages: one entry, a failing request, one more entry. -/
def failingListingEnv : Env :=
  { loadDefaultConfig := none
    pages := [Except.ok ⟨[⟨some "arnA", some "A"⟩]⟩, Except.error ⟨"throttled"⟩,
              Except.ok ⟨[⟨some "arnC", some "C"⟩]⟩]
    describeRuleGroup := fun _ _ => Except.ok ⟨some ⟨some ⟨some "pass ip any any -> any any"⟩⟩⟩
    putObject := fun _ _ => none
    now := fun _ => ⟨2024, 3, 9, 7, 5, 1⟩ }

/-- Groups A, B, C listed on two pages: A has rule text, B has no rules
source, the describe call of C fails; a further ARN `arnD` answers with a rules
source that has no rule string. -/
def scenarioEnv : Env :=
  { loadDefaultConfig := none
    pages := [Except.ok ⟨[⟨some "arnA", some "A"⟩, ⟨some "arnB", some "B"⟩]⟩,
              Except.ok ⟨[⟨some "arnC", some "C"⟩]⟩]
    describeRuleGroup := fun _ i =>
      if i.RuleGroupArn = some "arnA" then
        Except.ok ⟨some ⟨some ⟨some "alert tcp any any -> any any"⟩⟩⟩
      else if i.RuleGroupArn = some "arnB" then Except.ok ⟨some ⟨none⟩⟩
      else if i.RuleGroupArn = some "arnD" then Except.ok ⟨some ⟨some ⟨none⟩⟩⟩
      else Except.error ⟨"AccessDenied"⟩
    putObject := fun _ _ => none
    now := fun _ => ⟨2024, 3, 9, 7, 5, 1⟩ }

/-- The listing of `scenarioEnv`. -/
def scenarioGroups : List RuleGroup := [⟨"A", "arnA"⟩, ⟨"B", "arnB"⟩, ⟨"C", "arnC"⟩]

/-- Groups A, B, C, D on one page: A and D have rule text, B has none, the
describe call of C fails; the first put fails; the clock advances by one second
per read. -/
def twoBackupsEnv : Env :=
  { loadDefaultConfig := none
    pages := [Except.ok ⟨[⟨some "arnA", some "A"⟩, ⟨some "arnB", some "B"⟩,
                          ⟨some "arnC", some "C"⟩, ⟨some "arnD", some "D"⟩]⟩]
    describeRuleGroup := fun _ i =>
      if i.RuleGroupArn = some "arnA" then
        Except.ok ⟨some ⟨some ⟨some "alert tcp any any -> any any"⟩⟩⟩
      else if i.RuleGroupArn = some "arnB" then Except.ok ⟨some ⟨some ⟨some ""⟩⟩⟩
      else if i.RuleGroupArn = some "arnD" then
        Except.ok ⟨some ⟨some ⟨some "drop udp any any -> any 53"⟩⟩⟩
      else Except.error ⟨"AccessDenied"⟩
    putObject := fun j _ => if j = 0 then some ⟨"SlowDown"⟩ else none
    now := fun j => ⟨2024, 3, 9, 7, 5, 1 + j⟩ }

/-- The listing of `twoBackupsEnv`. -/
def twoBackupsGroups : List RuleGroup :=
  [⟨"A", "arnA"⟩, ⟨"B", "arnB"⟩, ⟨"C", "arnC"⟩, ⟨"D", "arnD"⟩]

/-- Groups X and A are listed; the describe call of X succeeds with a nil
`RuleGroup`, the one of A returns rule text. -/
def nilRuleGroupEnv : Env :=
  { loadDefaultConfig := none
    pages := [Except.ok ⟨[⟨some "arnX", some "X"⟩, ⟨some "arnA", some "A"⟩]⟩]
    describeRuleGroup := fun _ i =>
      if i.RuleGroupArn = some "arnX" then Except.ok ⟨none⟩
      else Except.ok ⟨some ⟨some ⟨some "alert tcp any any -> any any"⟩⟩⟩
    putObject := fun _ _ => none
    now := fun _ => ⟨2024, 3, 9, 7, 5, 1⟩ }

/-! ## Facts about traces -/

theorem describesOf_append (a b : List Event) :
    describesOf (a ++ b) = describesOf a ++ describesOf b := by
  induction a with
  | nil => rfl
  | cons e a ih => cases e <;> simp [describesOf, ih]

theorem putsOf_append (a b : List Event) : putsOf (a ++ b) = putsOf a ++ putsOf b := by
  induction a with
  | nil => rfl
  | cons e a ih => cases e <;> simp [putsOf, ih]

theorem nowCalls_append (a b : List Event) : nowCalls (a ++ b) = nowCalls a + nowCalls b := by
  induction a with
  | nil => simp [nowCalls]
  | cons e a ih =>
    cases e
    all_goals simp [nowCalls, ih]
    omega

theorem describesOf_replicate_page (n : Nat) :
    describesOf (List.replicate n Event.listRuleGroupsPage) = [] := by
  induction n with
  | zero => rfl
  | succ n ih => simp [List.replicate_succ, describesOf, ih]

theorem putsOf_replicate_page (n : Nat) :
    putsOf (List.replicate n Event.listRuleGroupsPage) = [] := by
  induction n with
  | zero => rfl
  | succ n ih => simp [List.replicate_succ, putsOf, ih]

theorem nowCalls_replicate_page (n : Nat) :
    nowCalls (List.replicate n Event.listRuleGroupsPage) = 0 := by
  induction n with
  | zero => rfl
  | succ n ih => simp [List.replicate_succ, nowCalls, ih]

/-! ## ListRuleGroups -/

theorem ListRuleGroups.appendPage_eq (acc : List RuleGroup)
    (page : networkfirewall.ListRuleGroupsOutput) :
    ListRuleGroups.appendPage acc page =
      acc ++ page.RuleGroups.map
        (fun m => ({ Name := m.Name.getD "", Arn := m.Arn.getD "" } : RuleGroup)) := by
  have toString_eq : ∀ p : Option String, aws.ToString p = p.getD "" := by
    intro p; cases p <;> rfl
  unfold ListRuleGroups.appendPage
  generalize page.RuleGroups = ms
  induction ms generalizing acc with
  | nil => simp
  | cons m ms ih =>
    rw [List.foldl_cons, ih, toString_eq, toString_eq]
    simp

theorem ListRuleGroups.loop_ok (ps : List networkfirewall.ListRuleGroupsOutput)
    (acc : List RuleGroup) (tr : List Event) :
    ListRuleGroups.loop (ps.map Except.ok) acc tr =
      ((acc ++ (ps.map (fun p => p.RuleGroups)).flatten.map
          (fun m => ({ Name := m.Name.getD "", Arn := m.Arn.getD "" } : RuleGroup)), none),
        tr ++ List.replicate ps.length Event.listRuleGroupsPage) := by
  induction ps generalizing acc tr with
  | nil => simp [ListRuleGroups.loop]
  | cons p ps ih =>
    simp [ListRuleGroups.loop, ih, ListRuleGroups.appendPage_eq, List.replicate_succ]

theorem ListRuleGroups.loop_error (pre : List networkfirewall.ListRuleGroupsOutput)
    (err : GoError) (rest : List (Except GoError networkfirewall.ListRuleGroupsOutput))
    (acc : List RuleGroup) (tr : List Event) :
    ListRuleGroups.loop (pre.map Except.ok ++ Except.error err :: rest) acc tr =
      (([], some err), tr ++ List.replicate (pre.length + 1) Event.listRuleGroupsPage) := by
  induction pre generalizing acc tr with
  | nil => simp [ListRuleGroups.loop]
  | cons p pre ih =>
    have step : ListRuleGroups.loop
        ((p :: pre).map Except.ok ++ Except.error err :: rest) acc tr =
        ListRuleGroups.loop (pre.map Except.ok ++ Except.error err :: rest)
          (ListRuleGroups.appendPage acc p) (tr ++ [Event.listRuleGroupsPage]) := rfl
    rw [step, ih]
    simp [List.replicate_succ]

/-- Every page sequence with a failing request splits at its first failure. -/
theorem first_error_split {ε α : Type} (rs : List (Except ε α))
    (h : ∃ e, Except.error e ∈ rs) :
    ∃ (pre : List α) (err : ε) (rest : List (Except ε α)),
      rs = pre.map Except.ok ++ Except.error err :: rest := by
  induction rs with
  | nil => simp at h
  | cons r rs ih =>
    cases r with
    | error e => exact ⟨[], e, rs, rfl⟩
    | ok a =>
      obtain ⟨e, he⟩ := h
      have he2 : Except.error e ∈ rs := by simpa using he
      obtain ⟨pre, err, rest, hrs⟩ := ih ⟨e, he2⟩
      exact ⟨a :: pre, err, rest, by simp [hrs]⟩

/-- C1: when every page request succeeds, `ListRuleGroups` returns, without
error, the concatenation of the pages in page order, each page in its own
order, every entry turned into `RuleGroup{Name, Arn}` with a missing name or
ARN read as the empty string; the list has as many entries as the pages hold in
total, and one request is made per page. -/
theorem ListRuleGroups_all_pages (env : Env)
    (ps : List networkfirewall.ListRuleGroupsOutput) (tr : List Event) :
    ListRuleGroups { env with pages := ps.map Except.ok } tr =
        (((ps.map (fun p => p.RuleGroups)).flatten.map
            (fun m => ({ Name := m.Name.getD "", Arn := m.Arn.getD "" } : RuleGroup)), none),
          tr ++ List.replicate ps.length Event.listRuleGroupsPage) ∧
      (ListRuleGroups { env with pages := ps.map Except.ok } tr).1.1.length =
        (ps.map (fun p => p.RuleGroups.length)).sum := by
  have h := ListRuleGroups.loop_ok ps [] tr
  simp only [List.nil_append] at h
  refine ⟨h, ?_⟩
  unfold ListRuleGroups
  simp only [h, List.length_map, List.length_flatten, List.map_map]
  rfl

/-- C2: when some page request fails, `ListRuleGroups` returns the nil list
together with the error of the first failing request; that request is the last
one made, and the entries of the pages before it are not returned. -/
theorem ListRuleGroups_all_or_nothing (env : Env) (tr : List Event)
    (h : ∃ e, Except.error e ∈ env.pages) :
    ∃ (pre : List networkfirewall.ListRuleGroupsOutput) (err : GoError)
      (rest : List (Except GoError networkfirewall.ListRuleGroupsOutput)),
      env.pages = pre.map Except.ok ++ Except.error err :: rest ∧
      ListRuleGroups env tr =
        (([], some err), tr ++ List.replicate (pre.length + 1) Event.listRuleGroupsPage) := by
  obtain ⟨pre, err, rest, hp⟩ := first_error_split env.pages h
  refine ⟨pre, err, rest, hp, ?_⟩
  unfold ListRuleGroups
  rw [hp]
  exact ListRuleGroups.loop_error pre err rest [] tr

/-- C2 on three pages whose second request fails: two requests, no entries. -/
theorem ListRuleGroups_all_or_nothing_witness :
    (∃ e, Except.error e ∈ failingListingEnv.pages) ∧
    ∃ (pre : List networkfirewall.ListRuleGroupsOutput) (err : GoError)
      (rest : List (Except GoError networkfirewall.ListRuleGroupsOutput)),
      failingListingEnv.pages = pre.map Except.ok ++ Except.error err :: rest ∧
      ListRuleGroups failingListingEnv [] =
        (([], some err), [] ++ List.replicate (pre.length + 1) Event.listRuleGroupsPage) :=
  ⟨⟨⟨"throttled"⟩, by simp [failingListingEnv]⟩,
    ListRuleGroups_all_or_nothing failingListingEnv []
      ⟨⟨"throttled"⟩, by simp [failingListingEnv]⟩⟩

/-! ## FetchSuricataRules and UploadToS3 -/

/-- On answers that carry a rule group, and on failing calls,
`FetchSuricataRules` makes one describe request for the ARN with type
`STATEFUL` and returns as follows.  When the rule group has a rules source with
a rule string, that string is returned without error; when its rules source is
nil, or present without a rule string, the result is `""` without error; when
the call fails, the result is `""` with the error of the call. -/
theorem FetchSuricataRules_result (env : Env) (arn : String) (tr : List Event) :
    (∀ s, env.describeRuleGroup (describesOf tr).length ⟨some arn, "STATEFUL"⟩ =
        Except.ok ⟨some ⟨some ⟨some s⟩⟩⟩ →
      FetchSuricataRules env arn tr =
        (Except.ok (s, none), tr ++ [Event.describeRuleGroup ⟨some arn, "STATEFUL"⟩])) ∧
    (env.describeRuleGroup (describesOf tr).length ⟨some arn, "STATEFUL"⟩ =
        Except.ok ⟨some ⟨none⟩⟩ →
      FetchSuricataRules env arn tr =
        (Except.ok ("", none), tr ++ [Event.describeRuleGroup ⟨some arn, "STATEFUL"⟩])) ∧
    (env.describeRuleGroup (describesOf tr).length ⟨some arn, "STATEFUL"⟩ =
        Except.ok ⟨some ⟨some ⟨none⟩⟩⟩ →
      FetchSuricataRules env arn tr =
        (Except.ok ("", none), tr ++ [Event.describeRuleGroup ⟨some arn, "STATEFUL"⟩])) ∧
    (∀ err, env.describeRuleGroup (describesOf tr).length ⟨some arn, "STATEFUL"⟩ =
        Except.error err →
      FetchSuricataRules env arn tr =
        (Except.ok ("", some err), tr ++ [Event.describeRuleGroup ⟨some arn, "STATEFUL"⟩])) := by
  refine ⟨?_, ?_, ?_, ?_⟩
  · intro s h
    simp [FetchSuricataRules, FetchSuricataRules.input, aws.String, h,
      FetchSuricataRules.result, aws.ToString]
  · intro h
    simp [FetchSuricataRules, FetchSuricataRules.input, aws.String, h,
      FetchSuricataRules.result]
  · intro h
    simp [FetchSuricataRules, FetchSuricataRules.input, aws.String, h,
      FetchSuricataRules.result]
  · intro err h
    simp [FetchSuricataRules, FetchSuricataRules.input, aws.String, h,
      FetchSuricataRules.result]

/-- The four answers of the scenario: text, no rules source, no rule string,
failing call. -/
theorem FetchSuricataRules_result_witness :
    FetchSuricataRules scenarioEnv "arnA" [] =
      (Except.ok ("alert tcp any any -> any any", none),
        [] ++ [Event.describeRuleGroup ⟨some "arnA", "STATEFUL"⟩]) ∧
    FetchSuricataRules scenarioEnv "arnB" [] =
      (Except.ok ("", none), [] ++ [Event.describeRuleGroup ⟨some "arnB", "STATEFUL"⟩]) ∧
    FetchSuricataRules scenarioEnv "arnD" [] =
      (Except.ok ("", none), [] ++ [Event.describeRuleGroup ⟨some "arnD", "STATEFUL"⟩]) ∧
    FetchSuricataRules scenarioEnv "arnC" [] =
      (Except.ok ("", some ⟨"AccessDenied"⟩),
        [] ++ [Event.describeRuleGroup ⟨some "arnC", "STATEFUL"⟩]) :=
  ⟨(FetchSuricataRules_result scenarioEnv "arnA" []).1 _ rfl,
    (FetchSuricataRules_result scenarioEnv "arnB" []).2.1 rfl,
    (FetchSuricataRules_result scenarioEnv "arnD" []).2.2.1 rfl,
    (FetchSuricataRules_result scenarioEnv "arnC" []).2.2.2 _ rfl⟩

/-- C3: a successful describe answer without a rule group has no rules
source, and there `FetchSuricataRules` does not return `""` without error:
whatever the ARN and the calls made so far, it makes its describe request and
panics with a nil pointer dereference on reading `resp.RuleGroup.RulesSource`. -/
theorem FetchSuricataRules_absent_rule_group_no_empty_result (env : Env) (arn : String)
    (tr : List Event) :
    FetchSuricataRules { env with describeRuleGroup := fun _ _ => Except.ok ⟨none⟩ } arn tr =
        (Except.error Panic.nilPointerDereference,
          tr ++ [Event.describeRuleGroup ⟨some arn, "STATEFUL"⟩]) ∧
      (FetchSuricataRules { env with describeRuleGroup := fun _ _ => Except.ok ⟨none⟩ }
          arn tr).1 ≠ Except.ok ("", none) := by
  have h : FetchSuricataRules { env with describeRuleGroup := fun _ _ => Except.ok ⟨none⟩ }
      arn tr =
      (Except.error Panic.nilPointerDereference,
        tr ++ [Event.describeRuleGroup ⟨some arn, "STATEFUL"⟩]) := rfl
  refine ⟨h, ?_⟩
  rw [h]
  simp

/-- C10: on a successful describe answer whose `RuleGroup` pointer is nil,
`FetchSuricataRules` does not return a `(string, error)` pair: reading
`resp.RuleGroup.RulesSource` panics with a nil pointer dereference. -/
theorem FetchSuricataRules_nil_rule_group_panics :
    FetchSuricataRules nilRuleGroupEnv "arnX" [] =
      (Except.error Panic.nilPointerDereference,
        [Event.describeRuleGroup ⟨some "arnX", "STATEFUL"⟩]) := rfl

/-- C4: `UploadToS3` issues exactly one put request, for bucket `bucketName`,
key `folder ++ "/" ++ fileName` and the bytes of `content` as body, and returns
what that request returned: nil exactly when the put succeeded, and otherwise
the error of the put. -/
theorem UploadToS3_single_put (env : Env) (content fileName bucketName folder : String)
    (tr : List Event) :
    UploadToS3 env content fileName bucketName folder tr =
        (env.putObject (putsOf tr).length
            { Bucket := some bucketName, Key := some (folder ++ "/" ++ fileName),
              Body := content.toUTF8 },
          tr ++ [Event.putObject
            { Bucket := some bucketName, Key := some (folder ++ "/" ++ fileName),
              Body := content.toUTF8 }]) ∧
      putsOf (UploadToS3 env content fileName bucketName folder tr).2 =
        putsOf tr ++ [{ Bucket := some bucketName, Key := some (folder ++ "/" ++ fileName),
                        Body := content.toUTF8 }] ∧
      ((UploadToS3 env content fileName bucketName folder tr).1 = none ↔
        env.putObject (putsOf tr).length
            { Bucket := some bucketName, Key := some (folder ++ "/" ++ fileName),
              Body := content.toUTF8 } = none) := by
  have h : UploadToS3 env content fileName bucketName folder tr =
      (env.putObject (putsOf tr).length
          { Bucket := some bucketName, Key := some (folder ++ "/" ++ fileName),
            Body := content.toUTF8 },
        tr ++ [Event.putObject
          { Bucket := some bucketName, Key := some (folder ++ "/" ++ fileName),
            Body := content.toUTF8 }]) := by
    unfold UploadToS3
    simp only [UploadToS3.input, UploadToS3.key, aws.String]
    split <;> simp_all
  refine ⟨h, ?_, ?_⟩
  · rw [h]; simp [putsOf_append, putsOf]
  · rw [h]

/-! ## The loop of LambdaHandler -/

theorem ListRuleGroups.loop_trace
    (pages : List (Except GoError networkfirewall.ListRuleGroupsOutput))
    (acc : List RuleGroup) (tr : List Event) :
    ∃ n, (ListRuleGroups.loop pages acc tr).2 = tr ++ List.replicate n Event.listRuleGroupsPage := by
  induction pages generalizing acc tr with
  | nil => exact ⟨0, by simp [ListRuleGroups.loop]⟩
  | cons r pages ih =>
    cases r with
    | error e => exact ⟨1, by simp [ListRuleGroups.loop]⟩
    | ok page =>
      obtain ⟨n, hn⟩ := ih (ListRuleGroups.appendPage acc page) (tr ++ [Event.listRuleGroupsPage])
      refine ⟨n + 1, ?_⟩
      simp only [ListRuleGroups.loop, hn, List.replicate_succ]
      simp

theorem FetchSuricataRules_eq (env : Env) (rg : RuleGroup) (tr : List Event) :
    FetchSuricataRules env rg.Arn tr =
      (fetchOutcome env (describesOf tr).length rg,
        tr ++ [Event.describeRuleGroup ⟨some rg.Arn, "STATEFUL"⟩]) := rfl

theorem LambdaHandler.loop_panic (env : Env) (rg : RuleGroup) (rest : List RuleGroup)
    (tr : List Event) (p : Panic)
    (h : fetchOutcome env (describesOf tr).length rg = Except.error p) :
    LambdaHandler.loop env (rg :: rest) tr =
      (Except.error p, tr ++ [Event.describeRuleGroup ⟨some rg.Arn, "STATEFUL"⟩]) := by
  simp [LambdaHandler.loop, FetchSuricataRules_eq, h]

theorem LambdaHandler.loop_skip (env : Env) (rg : RuleGroup) (rest : List RuleGroup)
    (tr : List Event) (rules : String) (err : Option GoError)
    (h : fetchOutcome env (describesOf tr).length rg = Except.ok (rules, err))
    (hskip : err ≠ none ∨ rules = "") :
    LambdaHandler.loop env (rg :: rest) tr =
      LambdaHandler.loop env rest (tr ++ [Event.describeRuleGroup ⟨some rg.Arn, "STATEFUL"⟩]) := by
  simp [LambdaHandler.loop, FetchSuricataRules_eq, h, hskip]

theorem LambdaHandler.loop_upload (env : Env) (rg : RuleGroup) (rest : List RuleGroup)
    (tr : List Event) (rules : String)
    (h : fetchOutcome env (describesOf tr).length rg = Except.ok (rules, none))
    (hne : rules ≠ "") :
    LambdaHandler.loop env (rg :: rest) tr =
      LambdaHandler.loop env rest
        (tr ++ [Event.describeRuleGroup ⟨some rg.Arn, "STATEFUL"⟩, Event.now,
          Event.putObject
            { Bucket := some S3BucketName,
              Key := some (S3Folder ++ "/" ++ rg.Name ++ "_" ++
                Time.Format (env.now (nowCalls tr)) ++ ".txt"),
              Body := rules.toUTF8 }]) := by
  have hk : ∀ ts : String, UploadToS3.key S3Folder (LambdaHandler.fileName rg.Name ts) =
      S3Folder ++ "/" ++ rg.Name ++ "_" ++ ts ++ ".txt" := by
    intro ts
    simp [UploadToS3.key, LambdaHandler.fileName, String.append_assoc]
  have hu : ∀ (fileName : String) (t : List Event),
      (UploadToS3 env rules fileName S3BucketName S3Folder t).2 =
        t ++ [Event.putObject (UploadToS3.input rules fileName S3BucketName S3Folder)] := by
    intro fileName t
    unfold UploadToS3
    dsimp only
    split <;> rfl
  rw [LambdaHandler.loop, FetchSuricataRules_eq, h]
  simp only [hne, or_false, ne_eq, not_true_eq_false, if_false, hu]
  simp only [UploadToS3.input, hk, aws.String, nowCalls_append, nowCalls, List.append_assoc,
    List.cons_append, List.nil_append, Nat.add_zero]

theorem fetchOutcome_cases (o : Except Panic (String × Option GoError)) :
    (∃ p, o = Except.error p) ∨
    (∃ rules err, o = Except.ok (rules, err) ∧ (err ≠ none ∨ rules = "")) ∨
    (∃ rules, o = Except.ok (rules, none) ∧ rules ≠ "") := by
  rcases o with p | ⟨rules, err⟩
  · exact Or.inl ⟨p, rfl⟩
  · by_cases h : err ≠ none ∨ rules = ""
    · exact Or.inr (Or.inl ⟨rules, err, rfl, h⟩)
    · have h1 : err = none := by
        by_contra hc
        exact h (Or.inl hc)
      have h2 : rules ≠ "" := fun hc => h (Or.inr hc)
      subst h1
      exact Or.inr (Or.inr ⟨rules, rfl, h2⟩)

theorem backedUpFrom_nil (env : Env) (k : Nat) : backedUpFrom env k [] = [] := rfl

theorem backedUpFrom_panic (env : Env) (k : Nat) (rg : RuleGroup) (rest : List RuleGroup)
    (p : Panic) (h : fetchOutcome env k rg = Except.error p) :
    backedUpFrom env k (rg :: rest) = [] := by
  simp [backedUpFrom, reachedFrom, List.enumFrom, List.takeWhile, h, Except.isOk, Except.toBool]

theorem backedUpFrom_skip (env : Env) (k : Nat) (rg : RuleGroup) (rest : List RuleGroup)
    (rules : String) (err : Option GoError)
    (h : fetchOutcome env k rg = Except.ok (rules, err)) (hskip : err ≠ none ∨ rules = "") :
    backedUpFrom env k (rg :: rest) = backedUpFrom env (k + 1) rest := by
  have ht : textToBackUp (Except.ok (rules, err)) = none := by
    cases err with
    | some e => rfl
    | none =>
      have hr : rules = "" := by simpa using hskip
      simp [textToBackUp, hr]
  simp [backedUpFrom, reachedFrom, List.enumFrom, List.takeWhile, h, Except.isOk,
    Except.toBool, ht]

theorem backedUpFrom_upload (env : Env) (k : Nat) (rg : RuleGroup) (rest : List RuleGroup)
    (rules : String) (h : fetchOutcome env k rg = Except.ok (rules, none)) (hne : rules ≠ "") :
    backedUpFrom env k (rg :: rest) = (rg, rules) :: backedUpFrom env (k + 1) rest := by
  simp [backedUpFrom, reachedFrom, List.enumFrom, List.takeWhile, h, Except.isOk,
    Except.toBool, textToBackUp, hne]

/-- The puts of the loop: one per group fetched with non-empty text, in order. -/
theorem LambdaHandler.loop_puts (env : Env) (groups : List RuleGroup) (tr : List Event) :
    putsOf (LambdaHandler.loop env groups tr).2 =
      putsOf tr ++
        ((backedUpFrom env (describesOf tr).length groups).enumFrom (nowCalls tr)).map
          (fun q =>
            ({ Bucket := some S3BucketName,
               Key := some (S3Folder ++ "/" ++ q.2.1.Name ++ "_" ++
                 Time.Format (env.now q.1) ++ ".txt"),
               Body := q.2.2.toUTF8 } : s3.PutObjectInput)) := by
  induction groups generalizing tr with
  | nil => simp [LambdaHandler.loop, backedUpFrom_nil, List.enumFrom]
  | cons rg rest ih =>
    rcases fetchOutcome_cases (fetchOutcome env (describesOf tr).length rg) with
      ⟨p, h⟩ | ⟨rules, err, h, hskip⟩ | ⟨rules, h, hne⟩
    · rw [LambdaHandler.loop_panic env rg rest tr p h, backedUpFrom_panic env _ rg rest p h]
      simp [putsOf_append, putsOf, List.enumFrom]
    · rw [LambdaHandler.loop_skip env rg rest tr rules err h hskip, ih,
        backedUpFrom_skip env _ rg rest rules err h hskip]
      simp [putsOf_append, putsOf, describesOf_append, describesOf, nowCalls_append, nowCalls]
    · rw [LambdaHandler.loop_upload env rg rest tr rules h hne, ih,
        backedUpFrom_upload env _ rg rest rules h hne]
      simp [putsOf_append, putsOf, describesOf_append, describesOf, nowCalls_append, nowCalls,
        List.enumFrom]

/-- The clock reads of the loop: one per group fetched with non-empty text. -/
theorem LambdaHandler.loop_nows (env : Env) (groups : List RuleGroup) (tr : List Event) :
    nowCalls (LambdaHandler.loop env groups tr).2 =
      nowCalls tr + (backedUpFrom env (describesOf tr).length groups).length := by
  induction groups generalizing tr with
  | nil => simp [LambdaHandler.loop, backedUpFrom_nil]
  | cons rg rest ih =>
    rcases fetchOutcome_cases (fetchOutcome env (describesOf tr).length rg) with
      ⟨p, h⟩ | ⟨rules, err, h, hskip⟩ | ⟨rules, h, hne⟩
    · rw [LambdaHandler.loop_panic env rg rest tr p h, backedUpFrom_panic env _ rg rest p h]
      simp [nowCalls_append, nowCalls]
    · rw [LambdaHandler.loop_skip env rg rest tr rules err h hskip, ih,
        backedUpFrom_skip env _ rg rest rules err h hskip]
      simp [describesOf_append, describesOf, nowCalls_append, nowCalls]
    · rw [LambdaHandler.loop_upload env rg rest tr rules h hne, ih,
        backedUpFrom_upload env _ rg rest rules h hne]
      simp [describesOf_append, describesOf, nowCalls_append, nowCalls]
      omega

theorem LambdaHandler.loop_append (env : Env) (pre post : List RuleGroup) (tr : List Event) :
    LambdaHandler.loop env (pre ++ post) tr =
      match LambdaHandler.loop env pre tr with
      | (Except.ok (), tr1) => LambdaHandler.loop env post tr1
      | (Except.error p, tr1) => (Except.error p, tr1) := by
  induction pre generalizing tr with
  | nil => simp [LambdaHandler.loop]
  | cons rg rest ih =>
    rcases fetchOutcome_cases (fetchOutcome env (describesOf tr).length rg) with
      ⟨p, h⟩ | ⟨rules, err, h, hskip⟩ | ⟨rules, h, hne⟩
    · rw [List.cons_append, LambdaHandler.loop_panic env rg _ tr p h,
        LambdaHandler.loop_panic env rg _ tr p h]
    · rw [List.cons_append, LambdaHandler.loop_skip env rg _ tr rules err h hskip,
        LambdaHandler.loop_skip env rg _ tr rules err h hskip, ih]
    · rw [List.cons_append, LambdaHandler.loop_upload env rg _ tr rules h hne,
        LambdaHandler.loop_upload env rg _ tr rules h hne, ih]

/-- With a rule group in every successful describe answer the loop never
panics and describes every group once, in listing order. -/
theorem LambdaHandler.loop_completes (env : Env) (hp : RuleGroupsPresent env)
    (groups : List RuleGroup) (tr : List Event) :
    (LambdaHandler.loop env groups tr).1 = Except.ok () ∧
      describesOf (LambdaHandler.loop env groups tr).2 =
        describesOf tr ++ groups.map
          (fun rg => (⟨some rg.Arn, "STATEFUL"⟩ : networkfirewall.DescribeRuleGroupInput)) := by
  induction groups generalizing tr with
  | nil => simp [LambdaHandler.loop]
  | cons rg rest ih =>
    rcases fetchOutcome_cases (fetchOutcome env (describesOf tr).length rg) with
      ⟨p, h⟩ | ⟨rules, err, h, hskip⟩ | ⟨rules, h, hne⟩
    · exfalso
      unfold fetchOutcome FetchSuricataRules.result at h
      split at h
      · simp at h
      · rename_i resp hresp
        have hpres := hp _ _ _ hresp
        split at h
        · rename_i hnil
          exact hpres hnil
        · split at h
          · split at h <;> simp at h
          · simp at h
    · rw [LambdaHandler.loop_skip env rg rest tr rules err h hskip]
      refine ⟨(ih _).1, ?_⟩
      rw [(ih _).2]
      simp [describesOf_append, describesOf]
    · rw [LambdaHandler.loop_upload env rg rest tr rules h hne]
      refine ⟨(ih _).1, ?_⟩
      rw [(ih _).2]
      simp [describesOf_append, describesOf]

/-! ## LambdaHandler -/

/-- After a successful configuration load and listing, the handler runs the
loop on the listed groups from the trace left by the listing. -/
theorem LambdaHandler_of_listing (env : Env) (groups : List RuleGroup)
    (hcfg : env.loadDefaultConfig = none)
    (hlist : (ListRuleGroups env [Event.loadDefaultConfig Region]).1 = (groups, none)) :
    (LambdaHandler env).2 =
        (LambdaHandler.loop env groups (ListRuleGroups env [Event.loadDefaultConfig Region]).2).2 ∧
      (LambdaHandler env).1 =
        (match (LambdaHandler.loop env groups
            (ListRuleGroups env [Event.loadDefaultConfig Region]).2).1 with
          | Except.ok () => Except.ok ("Backup completed successfully.", none)
          | Except.error p => Except.error p) := by
  unfold LambdaHandler
  rw [hcfg]
  generalize ListRuleGroups env [Event.loadDefaultConfig Region] = r at hlist
  obtain ⟨⟨gs, e⟩, tr1⟩ := r
  simp only [Prod.mk.injEq] at hlist
  obtain ⟨rfl, rfl⟩ := hlist
  dsimp only
  generalize LambdaHandler.loop env gs tr1 = q
  obtain ⟨res, tr2⟩ := q
  cases res with
  | error p => exact ⟨rfl, rfl⟩
  | ok u => exact ⟨rfl, rfl⟩

/-- The listing leaves a trace without describe, clock or put events. -/
theorem ListRuleGroups_trace (env : Env) :
    describesOf (ListRuleGroups env [Event.loadDefaultConfig Region]).2 = [] ∧
      putsOf (ListRuleGroups env [Event.loadDefaultConfig Region]).2 = [] ∧
      nowCalls (ListRuleGroups env [Event.loadDefaultConfig Region]).2 = 0 := by
  obtain ⟨n, hn⟩ := ListRuleGroups.loop_trace env.pages [] [Event.loadDefaultConfig Region]
  unfold ListRuleGroups
  rw [hn]
  simp [describesOf_append, putsOf_append, nowCalls_append, describesOf, putsOf, nowCalls,
    describesOf_replicate_page, putsOf_replicate_page, nowCalls_replicate_page]

/-- The puts of a whole run. -/
theorem LambdaHandler_putsOf (env : Env) (groups : List RuleGroup)
    (hcfg : env.loadDefaultConfig = none)
    (hlist : (ListRuleGroups env [Event.loadDefaultConfig Region]).1 = (groups, none)) :
    putsOf (LambdaHandler env).2 =
      ((backedUp env groups).enum).map
        (fun q =>
          ({ Bucket := some S3BucketName,
             Key := some (S3Folder ++ "/" ++ q.2.1.Name ++ "_" ++
               Time.Format (env.now q.1) ++ ".txt"),
             Body := q.2.2.toUTF8 } : s3.PutObjectInput)) := by
  rw [(LambdaHandler_of_listing env groups hcfg hlist).1, LambdaHandler.loop_puts,
    (ListRuleGroups_trace env).1, (ListRuleGroups_trace env).2.1, (ListRuleGroups_trace env).2.2]
  rfl

theorem backedUpFrom_mem (env : Env) (groups : List RuleGroup) (k : Nat)
    (x : RuleGroup × String) (hx : x ∈ backedUpFrom env k groups) :
    ∃ i, groups[i]? = some x.1 ∧ fetchOutcome env (k + i) x.1 = Except.ok (x.2, none) ∧
      x.2 ≠ "" := by
  induction groups generalizing k with
  | nil => simp [backedUpFrom_nil] at hx
  | cons rg rest ih =>
    have shift : (∃ i, rest[i]? = some x.1 ∧
        fetchOutcome env (k + 1 + i) x.1 = Except.ok (x.2, none) ∧ x.2 ≠ "") →
        ∃ i, (rg :: rest)[i]? = some x.1 ∧
          fetchOutcome env (k + i) x.1 = Except.ok (x.2, none) ∧ x.2 ≠ "" := by
      rintro ⟨i, h1, h2, h3⟩
      refine ⟨i + 1, by simpa using h1, ?_, h3⟩
      rw [← h2]
      congr 1
      omega
    rcases fetchOutcome_cases (fetchOutcome env k rg) with
      ⟨p, h⟩ | ⟨rules, err, h, hskip⟩ | ⟨rules, h, hne⟩
    · rw [backedUpFrom_panic env k rg rest p h] at hx
      simp at hx
    · rw [backedUpFrom_skip env k rg rest rules err h hskip] at hx
      exact shift (ih (k + 1) hx)
    · rw [backedUpFrom_upload env k rg rest rules h hne] at hx
      rcases List.mem_cons.mp hx with rfl | hx
      · exact ⟨0, by simp, by simpa using h, hne⟩
      · exact shift (ih (k + 1) hx)

/-- C5: in a run whose configuration load and listing succeed, the puts are,
in listing order, exactly one per listed group whose fetch succeeded with
non-empty text: bucket `S3BucketName`, key
`S3Folder ++ "/" ++ name ++ "_" ++ timestamp ++ ".txt"` where the timestamp is
the formatted clock read made for that group (the `j`-th backed-up group gets
the `j`-th read), and body the bytes of the fetched text. -/
theorem LambdaHandler_one_put_per_backup (env : Env) (groups : List RuleGroup)
    (hcfg : env.loadDefaultConfig = none)
    (hlist : (ListRuleGroups env [Event.loadDefaultConfig Region]).1 = (groups, none)) :
    putsOf (LambdaHandler env).2 =
        ((backedUp env groups).enum).map
          (fun q =>
            ({ Bucket := some S3BucketName,
               Key := some (S3Folder ++ "/" ++ q.2.1.Name ++ "_" ++
                 Time.Format (env.now q.1) ++ ".txt"),
               Body := q.2.2.toUTF8 } : s3.PutObjectInput)) ∧
      (putsOf (LambdaHandler env).2).length = (backedUp env groups).length ∧
      nowCalls (LambdaHandler env).2 = (backedUp env groups).length := by
  have hputs := LambdaHandler_putsOf env groups hcfg hlist
  refine ⟨hputs, by rw [hputs]; simp [List.enum], ?_⟩
  rw [(LambdaHandler_of_listing env groups hcfg hlist).1, LambdaHandler.loop_nows,
    (ListRuleGroups_trace env).1, (ListRuleGroups_trace env).2.2]
  simp [backedUp]

/-- C5 on four groups of which the first and the last have rule text: two
puts, in listing order, each with its own clock read. -/
theorem LambdaHandler_one_put_per_backup_witness :
    twoBackupsEnv.loadDefaultConfig = none ∧
    (ListRuleGroups twoBackupsEnv [Event.loadDefaultConfig Region]).1 =
      (twoBackupsGroups, none) ∧
    backedUp twoBackupsEnv twoBackupsGroups =
      [(⟨"A", "arnA"⟩, "alert tcp any any -> any any"),
       (⟨"D", "arnD"⟩, "drop udp any any -> any 53")] ∧
    (putsOf (LambdaHandler twoBackupsEnv).2 =
        ((backedUp twoBackupsEnv twoBackupsGroups).enum).map
          (fun q =>
            ({ Bucket := some S3BucketName,
               Key := some (S3Folder ++ "/" ++ q.2.1.Name ++ "_" ++
                 Time.Format (twoBackupsEnv.now q.1) ++ ".txt"),
               Body := q.2.2.toUTF8 } : s3.PutObjectInput)) ∧
      (putsOf (LambdaHandler twoBackupsEnv).2).length =
        (backedUp twoBackupsEnv twoBackupsGroups).length ∧
      nowCalls (LambdaHandler twoBackupsEnv).2 =
        (backedUp twoBackupsEnv twoBackupsGroups).length) ∧
    putsOf (LambdaHandler twoBackupsEnv).2 =
      [{ Bucket := some "placeholder", Key := some "placeholder/A_2024-03-09_07-05-01.txt",
         Body := "alert tcp any any -> any any".toUTF8 },
       { Bucket := some "placeholder", Key := some "placeholder/D_2024-03-09_07-05-02.txt",
         Body := "drop udp any any -> any 53".toUTF8 }] :=
  ⟨rfl, rfl, rfl, LambdaHandler_one_put_per_backup twoBackupsEnv twoBackupsGroups rfl rfl,
    rfl⟩

/-- C6: a listed group whose fetch fails or returns the empty string adds its
describe request to the run and nothing else (no clock read, no put), and the
loop goes on with the next group; so the puts of a run are as many as the
listed groups whose fetch succeeded with non-empty text, every put is the put
of such a group, and every such group is a listed one.  In the scenario of
groups A (rule text), B (no rules source) and C (describe fails) there is one
put, for A, and the handler returns the success message. -/
theorem LambdaHandler_skips_without_text :
    (∀ (env : Env) (pre : List RuleGroup) (rg : RuleGroup) (post : List RuleGroup)
        (tr tr1 : List Event) (rules : String) (err : Option GoError),
        LambdaHandler.loop env pre tr = (Except.ok (), tr1) →
        fetchOutcome env (describesOf tr1).length rg = Except.ok (rules, err) →
        (err ≠ none ∨ rules = "") →
        LambdaHandler.loop env (pre ++ rg :: post) tr =
          LambdaHandler.loop env post
            (tr1 ++ [Event.describeRuleGroup ⟨some rg.Arn, "STATEFUL"⟩])) ∧
    (∀ (env : Env) (groups : List RuleGroup),
        env.loadDefaultConfig = none →
        (ListRuleGroups env [Event.loadDefaultConfig Region]).1 = (groups, none) →
        (putsOf (LambdaHandler env).2).length = (backedUp env groups).length ∧
        (∀ p ∈ putsOf (LambdaHandler env).2, ∃ x ∈ backedUp env groups, ∃ ts : String,
          p = { Bucket := some S3BucketName,
                Key := some (S3Folder ++ "/" ++ x.1.Name ++ "_" ++ ts ++ ".txt"),
                Body := x.2.toUTF8 }) ∧
        (∀ x ∈ backedUp env groups, ∃ i, groups[i]? = some x.1 ∧
          fetchOutcome env i x.1 = Except.ok (x.2, none) ∧ x.2 ≠ "")) ∧
    ((LambdaHandler scenarioEnv).1 = Except.ok ("Backup completed successfully.", none) ∧
      putsOf (LambdaHandler scenarioEnv).2 =
        [{ Bucket := some S3BucketName,
           Key := some (S3Folder ++ "/" ++ "A_2024-03-09_07-05-01.txt"),
           Body := "alert tcp any any -> any any".toUTF8 }] ∧
      describesOf (LambdaHandler scenarioEnv).2 =
        [⟨some "arnA", "STATEFUL"⟩, ⟨some "arnB", "STATEFUL"⟩, ⟨some "arnC", "STATEFUL"⟩]) := by
  refine ⟨?_, ?_, rfl, rfl, rfl⟩
  · intro env pre rg post tr tr1 rules err hpre hfetch hskip
    rw [LambdaHandler.loop_append, hpre]
    exact LambdaHandler.loop_skip env rg post tr1 rules err hfetch hskip
  · intro env groups hcfg hlist
    have hputs := LambdaHandler_putsOf env groups hcfg hlist
    refine ⟨by rw [hputs]; simp [List.enum], ?_, ?_⟩
    · intro p hp
      rw [hputs] at hp
      obtain ⟨q, hq, rfl⟩ := List.mem_map.mp hp
      refine ⟨q.2, ?_, Time.Format (env.now q.1), rfl⟩
      have hq2 : q.2 ∈ (List.enum (backedUp env groups)).map Prod.snd :=
        List.mem_map.mpr ⟨q, hq, rfl⟩
      simpa [List.enum] using hq2
    · intro x hx
      obtain ⟨i, h1, h2, h3⟩ := backedUpFrom_mem env groups 0 x hx
      exact ⟨i, h1, by simpa using h2, h3⟩

/-- C6 in the scenario: B is skipped after A, and the run has one put. -/
theorem LambdaHandler_skips_without_text_witness :
    LambdaHandler.loop scenarioEnv ([⟨"A", "arnA"⟩] ++ ⟨"B", "arnB"⟩ :: [⟨"C", "arnC"⟩]) [] =
        LambdaHandler.loop scenarioEnv [⟨"C", "arnC"⟩]
          ((LambdaHandler.loop scenarioEnv [⟨"A", "arnA"⟩] []).2 ++
            [Event.describeRuleGroup ⟨some "arnB", "STATEFUL"⟩]) ∧
    (putsOf (LambdaHandler scenarioEnv).2).length = (backedUp scenarioEnv scenarioGroups).length ∧
    backedUp scenarioEnv scenarioGroups = [(⟨"A", "arnA"⟩, "alert tcp any any -> any any")] :=
  ⟨LambdaHandler_skips_without_text.1 scenarioEnv [⟨"A", "arnA"⟩] ⟨"B", "arnB"⟩ [⟨"C", "arnC"⟩]
      [] _ "" none rfl rfl (Or.inr rfl),
    (LambdaHandler_skips_without_text.2.1 scenarioEnv scenarioGroups rfl rfl).1, rfl⟩

/-- With a rule group in every successful describe answer, a run whose
configuration load and listing succeed describes every listed group once, in
listing order, and returns the success message whatever the describe and put
calls answer. -/
theorem LambdaHandler_completes_of_rule_groups_present (env : Env) (groups : List RuleGroup)
    (hp : RuleGroupsPresent env) (hcfg : env.loadDefaultConfig = none)
    (hlist : (ListRuleGroups env [Event.loadDefaultConfig Region]).1 = (groups, none)) :
    (LambdaHandler env).1 = Except.ok ("Backup completed successfully.", none) ∧
      describesOf (LambdaHandler env).2 =
        groups.map (fun rg => (⟨some rg.Arn, "STATEFUL"⟩ : networkfirewall.DescribeRuleGroupInput)) := by
  obtain ⟨htr, hres⟩ := LambdaHandler_of_listing env groups hcfg hlist
  obtain ⟨hok, hdesc⟩ := LambdaHandler.loop_completes env hp groups
    (ListRuleGroups env [Event.loadDefaultConfig Region]).2
  rw [hres, htr, hok, hdesc, (ListRuleGroups_trace env).1]
  simp

/-- C7: with groups X and A listed and the describe call of X answering
successfully with a nil `RuleGroup`, the handler does not return the success
message: it panics in the fetch of X, and A is never described nor backed up. -/
theorem LambdaHandler_nil_rule_group_panics :
    LambdaHandler nilRuleGroupEnv =
      (Except.error Panic.nilPointerDereference,
        [Event.loadDefaultConfig Region, Event.listRuleGroupsPage,
          Event.describeRuleGroup ⟨some "arnX", "STATEFUL"⟩]) := rfl

/-- C8: when the configuration loads and `ListRuleGroups` returns an error, the
handler returns `("", err)` with that error and the run has no describe call,
no clock read and no put. -/
theorem LambdaHandler_listing_failure (env : Env) (gs : List RuleGroup) (err : GoError)
    (hcfg : env.loadDefaultConfig = none)
    (hlist : (ListRuleGroups env [Event.loadDefaultConfig Region]).1 = (gs, some err)) :
    (LambdaHandler env).1 = Except.ok ("", some err) ∧
      (LambdaHandler env).1 ≠ Except.ok ("Backup completed successfully.", none) ∧
      describesOf (LambdaHandler env).2 = [] ∧
      putsOf (LambdaHandler env).2 = [] ∧
      nowCalls (LambdaHandler env).2 = 0 := by
  have hrun : LambdaHandler env =
      (Except.ok ("", some err), (ListRuleGroups env [Event.loadDefaultConfig Region]).2) := by
    unfold LambdaHandler
    rw [hcfg]
    generalize ListRuleGroups env [Event.loadDefaultConfig Region] = r at hlist
    obtain ⟨⟨gs1, e⟩, tr1⟩ := r
    simp only [Prod.mk.injEq] at hlist
    obtain ⟨rfl, rfl⟩ := hlist
    rfl
  rw [hrun]
  exact ⟨rfl, by simp, (ListRuleGroups_trace env).1, (ListRuleGroups_trace env).2.1,
    (ListRuleGroups_trace env).2.2⟩

/-- C8 on the listing whose second page request fails. -/
theorem LambdaHandler_listing_failure_witness :
    failingListingEnv.loadDefaultConfig = none ∧
    (ListRuleGroups failingListingEnv [Event.loadDefaultConfig Region]).1 =
      ([], some ⟨"throttled"⟩) ∧
    ((LambdaHandler failingListingEnv).1 = Except.ok ("", some ⟨"throttled"⟩) ∧
      (LambdaHandler failingListingEnv).1 ≠
        Except.ok ("Backup completed successfully.", none) ∧
      describesOf (LambdaHandler failingListingEnv).2 = [] ∧
      putsOf (LambdaHandler failingListingEnv).2 = [] ∧
      nowCalls (LambdaHandler failingListingEnv).2 = 0) :=
  ⟨rfl, rfl, LambdaHandler_listing_failure failingListingEnv [] ⟨"throttled"⟩ rfl rfl⟩

/-! ## Object keys -/

theorem appendInt_length (x width : Nat) (hw : 0 < width) (hx : x < 10 ^ width) :
    (appendInt x width).length = width := by
  have h : (Nat.toDigits 10 x).length ≤ width :=
    Nat.toDigitsCore_length 10 (by decide) (x + 1) x width hx hw
  simp only [appendInt, List.length_append, List.length_replicate]
  omega

theorem Time.Format_length (t : Time) (h : t.FixedWidth) : (Time.Format t).length = 19 := by
  obtain ⟨hy, hmo, hd, hh, hmi, hs⟩ := h
  have e4 := appendInt_length t.year 4 (by decide) (by simpa using hy)
  have e2 : ∀ x, x < 100 → (appendInt x 2).length = 2 :=
    fun x hx => appendInt_length x 2 (by decide) (by simpa using hx)
  simp only [Time.Format, String.length_append, String.length_mk, e4, e2 _ hmo, e2 _ hd,
    e2 _ hh, e2 _ hmi, e2 _ hs]
  rfl

theorem digitChar_value : ∀ m, m < 10 → (Nat.digitChar m).toNat - 48 = m := by
  decide

theorem digitsValue_toDigitsCore (fuel n : Nat) (ds : List Char) (h : n < fuel) :
    digitsValue 0 (Nat.toDigitsCore 10 fuel n ds) = digitsValue n ds := by
  induction fuel generalizing n ds with
  | zero => omega
  | succ fuel ih =>
    have hd : digitsValue 0 (Nat.digitChar (n % 10) :: ds) = digitsValue (n % 10) ds := by
      simp [digitsValue, digitChar_value (n % 10) (Nat.mod_lt _ (by decide))]
    by_cases h0 : n / 10 = 0
    · simp only [Nat.toDigitsCore, h0, if_true, hd]
      congr 1
      omega
    · simp only [Nat.toDigitsCore, h0, if_false]
      rw [ih (n / 10) _ (by omega)]
      simp only [digitsValue, List.foldl_cons, digitChar_value (n % 10) (Nat.mod_lt _ (by decide))]
      congr 1
      omega

/-- Reading back the digits written by `appendInt` gives the number. -/
theorem digitsValue_appendInt (x width : Nat) : digitsValue 0 (appendInt x width) = x := by
  have hz : ∀ k, digitsValue 0 (List.replicate k '0') = 0 := by
    intro k
    induction k with
    | zero => rfl
    | succ k ih =>
      simp only [digitsValue, List.replicate_succ, List.foldl_cons] at ih ⊢
      exact ih
  have happ : ∀ a b, digitsValue 0 (a ++ b) = digitsValue (digitsValue 0 a) b := by
    intro a b
    simp [digitsValue, List.foldl_append]
  rw [appendInt, happ, hz]
  have := digitsValue_toDigitsCore (x + 1) x [] (by omega)
  simpa [Nat.toDigits, digitsValue] using this

theorem appendInt_injective (x y width : Nat) (h : appendInt x width = appendInt y width) :
    x = y := by
  rw [← digitsValue_appendInt x width, h, digitsValue_appendInt]

/-- Two fixed-width clock readings with the same timestamp are the same second. -/
theorem Time.Format_injective (c1 c2 : Time) (h1 : c1.FixedWidth) (h2 : c2.FixedWidth)
    (h : Time.Format c1 = Time.Format c2) : c1 = c2 := by
  obtain ⟨y1, mo1, d1, hr1, mi1, s1⟩ := h1
  obtain ⟨y2, mo2, d2, hr2, mi2, s2⟩ := h2
  have e4 : ∀ x, x < 10000 → (appendInt x 4).length = 4 :=
    fun x hx => appendInt_length x 4 (by decide) (by simpa using hx)
  have e2 : ∀ x, x < 100 → (appendInt x 2).length = 2 :=
    fun x hx => appendInt_length x 2 (by decide) (by simpa using hx)
  have hd := congrArg String.data h
  simp only [Time.Format, String.data_append, List.append_assoc] at hd
  obtain ⟨hy, hd⟩ := List.append_inj hd ((e4 _ y1).trans (e4 _ y2).symm)
  obtain ⟨hmo, hd⟩ := List.append_inj (List.append_cancel_left hd)
    ((e2 _ mo1).trans (e2 _ mo2).symm)
  obtain ⟨hday, hd⟩ := List.append_inj (List.append_cancel_left hd)
    ((e2 _ d1).trans (e2 _ d2).symm)
  obtain ⟨hh, hd⟩ := List.append_inj (List.append_cancel_left hd)
    ((e2 _ hr1).trans (e2 _ hr2).symm)
  obtain ⟨hmi, hd⟩ := List.append_inj (List.append_cancel_left hd)
    ((e2 _ mi1).trans (e2 _ mi2).symm)
  have hs := List.append_cancel_left hd
  cases c1
  cases c2
  simp only [Time.mk.injEq]
  exact ⟨appendInt_injective _ _ _ hy, appendInt_injective _ _ _ hmo,
    appendInt_injective _ _ _ hday, appendInt_injective _ _ _ hh,
    appendInt_injective _ _ _ hmi, appendInt_injective _ _ _ hs⟩

/-- A key determines the name and the timestamp when timestamps have one length. -/
theorem key_injective (folder n1 n2 t1 t2 : String) (hlen : t1.length = t2.length)
    (hkey : folder ++ "/" ++ n1 ++ "_" ++ t1 ++ ".txt" =
      folder ++ "/" ++ n2 ++ "_" ++ t2 ++ ".txt") :
    n1 = n2 ∧ t1 = t2 := by
  have hd := congrArg String.data hkey
  simp only [String.data_append, List.append_assoc] at hd
  have h1 := List.append_cancel_left (List.append_cancel_left hd)
  have hl : ("_".data ++ (t1.data ++ ".txt".data)).length =
      ("_".data ++ (t2.data ++ ".txt".data)).length := by
    have : t1.data.length = t2.data.length := hlen
    simp only [List.length_append, this]
  obtain ⟨hn, hrest⟩ := List.append_inj' h1 hl
  have ht := List.append_cancel_right (List.append_cancel_left hrest)
  exact ⟨String.ext hn, String.ext ht⟩

/-- C9: two backup keys `S3Folder ++ "/" ++ n ++ "_" ++ t ++ ".txt"` whose
timestamps are clock readings in the fixed-width `YYYY-MM-DD_HH-MM-SS` format
(19 characters) are equal only if the names are equal and the timestamps are
equal, that is, only if the two readings are the same second. -/
theorem backup_key_unique (n1 n2 : String) (c1 c2 : Time)
    (h1 : c1.FixedWidth) (h2 : c2.FixedWidth)
    (hkey : S3Folder ++ "/" ++ n1 ++ "_" ++ Time.Format c1 ++ ".txt" =
      S3Folder ++ "/" ++ n2 ++ "_" ++ Time.Format c2 ++ ".txt") :
    (Time.Format c1).length = 19 ∧ (Time.Format c2).length = 19 ∧
      n1 = n2 ∧ Time.Format c1 = Time.Format c2 ∧ c1 = c2 := by
  have l1 := Time.Format_length c1 h1
  have l2 := Time.Format_length c2 h2
  obtain ⟨hn, ht⟩ := key_injective S3Folder n1 n2 _ _ (l1.trans l2.symm) hkey
  exact ⟨l1, l2, hn, ht, Time.Format_injective c1 c2 h1 h2 ht⟩

/-- C9 on two equal keys of group A. -/
theorem backup_key_unique_witness :
    (Time.FixedWidth ⟨2024, 3, 9, 7, 5, 1⟩) ∧
    S3Folder ++ "/" ++ "A" ++ "_" ++ Time.Format ⟨2024, 3, 9, 7, 5, 1⟩ ++ ".txt" =
      S3Folder ++ "/" ++ "A" ++ "_" ++ Time.Format ⟨2024, 3, 9, 7, 5, 1⟩ ++ ".txt" ∧
    ((Time.Format ⟨2024, 3, 9, 7, 5, 1⟩).length = 19 ∧
      (Time.Format ⟨2024, 3, 9, 7, 5, 1⟩).length = 19 ∧
      "A" = "A" ∧ Time.Format ⟨2024, 3, 9, 7, 5, 1⟩ = Time.Format ⟨2024, 3, 9, 7, 5, 1⟩ ∧
      (⟨2024, 3, 9, 7, 5, 1⟩ : Time) = ⟨2024, 3, 9, 7, 5, 1⟩) :=
  ⟨by unfold Time.FixedWidth; decide, rfl,
    backup_key_unique "A" "A" ⟨2024, 3, 9, 7, 5, 1⟩ ⟨2024, 3, 9, 7, 5, 1⟩
      (by unfold Time.FixedWidth; decide) (by unfold Time.FixedWidth; decide) rfl⟩
